import Mathlib

/-!
Verification development for the Fincat backend.

Two components are embedded from the Python sources:

* `src/backend/__init__.py` — the rule-based chat command interpreter
  (`chat`), acting on the in-memory stock store `_STOCKS`.
* `src/scripts/earnings_data.py` — the earnings-calendar normalizer
  (`get_earnings_calendar`).

Modelling conventions:

* The store `_STOCKS` (a Python `dict`) is an insertion-ordered association
  list; insertion overwrites in place, deletion removes the entry, and
  `list(_STOCKS.values())` is the list of values in insertion order.
* Python `float` values appearing as stock prices are modelled by `Rat`;
  the host primitive `float(text)` is an explicit parameter
  `pf : String → Option Rat` of the interpreter (`None` = `ValueError`).
  The textual rendering of a price in replies is `toString`.
* Python string helpers `.strip()`, `.split()`, `.lower()`, `.upper()` are
  modelled character-wise over `ASCII`-style `Char.isWhitespace`,
  `Char.toLower`, `Char.toUpper`.
* Calendar dates are modelled as integers (`Int`), ordered as dates are;
  `date.isoformat()` is injective, so an entry stores the date itself.
* The external data source (`yfinance`, reached through the source's
  `dt`/`yf` imports — the source's `import datatime` is read as the
  intended `datetime`) is a parameter
  `fetch : String → Int → QueryResult` taking the symbol and the `limit`
  argument; `raise` models any exception escaping the fetch, `nodata`
  models `df is None or df.empty`, and `rows` carries the per-event rows,
  each with its parsed date (`none` = unparseable index, dropped by the
  source loop) and its field mapping.
* A cell value is `PyVal.none` (Python `None`), `PyVal.num q` (present and
  `float`-convertible, with value `q`), or `PyVal.other` (present,
  non-null, raising `TypeError`/`ValueError` under `float`).
-/

namespace Fincat

/-! ### Python string primitives -/

def pyLower (s : String) : String :=
  ⟨s.data.map Char.toLower⟩

def pyUpper (s : String) : String :=
  ⟨s.data.map Char.toUpper⟩

def stripChars (l : List Char) : List Char :=
  ((l.dropWhile Char.isWhitespace).reverse.dropWhile Char.isWhitespace).reverse

def pyStrip (s : String) : String :=
  ⟨stripChars s.data⟩

/-- Accumulator-based word splitter: Python `str.split()` with no
separator (runs of whitespace separate words, no empty words). -/
def wordsAux (acc : List Char) : List Char → List (List Char)
  | [] => if acc = [] then [] else [acc.reverse]
  | c :: cs =>
    if c.isWhitespace then
      if acc = [] then wordsAux [] cs else acc.reverse :: wordsAux [] cs
    else
      wordsAux (c :: acc) cs

def pySplit (s : String) : List String :=
  (wordsAux [] s.data).map (fun l => ⟨l⟩)

/-! ### The stock store -/

structure Stock where
  symbol : String
  name : String
  price : Rat
  notes : Option String := none
deriving DecidableEq, Repr

abbrev Store := List (String × Stock)

def storeGet : Store → String → Option Stock
  | [], _ => none
  | (k', v) :: rest, k => if k' = k then some v else storeGet rest k

def storeSet : Store → String → Stock → Store
  | [], k, v => [(k, v)]
  | (k', v') :: rest, k, v =>
    if k' = k then (k, v) :: rest else (k', v') :: storeSet rest k v

def storeDel : Store → String → Store
  | [], _ => []
  | (k', v') :: rest, k =>
    if k' = k then rest else (k', v') :: storeDel rest k

def storeValues (st : Store) : List Stock :=
  st.map Prod.snd

structure ChatResponse where
  reply : String
  stocks : List Stock
deriving DecidableEq, Repr

/-! ### Reply strings of the chat endpoint -/

def usageReply : String :=
  "Please type a command like 'add AAPL Apple 195.3' or 'list'."

def addParseErrorReply : String :=
  "Could not parse price. Use something like 'add AAPL Apple 195.3'"

def updateParseErrorReply : String :=
  "Could not parse price. Use something like 'update AAPL 200.0'"

def notInListReply (symbol : String) : String :=
  symbol ++ " is not in your list."

def helpReply : String :=
  "I support: 'list', 'add SYMBOL NAME PRICE', 'remove SYMBOL', and 'update SYMBOL PRICE'."

def listReply (n : Nat) : String :=
  "You currently have " ++ toString n ++ " stock(s)."

def addedReply (symbol name : String) (price : Rat) : String :=
  "Added " ++ symbol ++ " (" ++ name ++ ") at " ++ toString price ++ "."

def removedReply (symbol : String) : String :=
  "Removed " ++ symbol ++ "."

def updatedReply (symbol : String) (price : Rat) : String :=
  "Updated " ++ symbol ++ " to " ++ toString price ++ "."

/-- The token-dispatch part of the `chat` endpoint (after the `"list"`
check): `parts` is `text.split()`. -/
def chatDispatch (pf : String → Option Rat) (st : Store) (parts : List String) :
    ChatResponse × Store :=
  if parts = [] then
    ({ reply := usageReply, stocks := storeValues st }, st)
  else if pyLower (parts.headD "") = "add" ∧ 4 ≤ parts.length then
    match pf (parts.getLastD "") with
    | none => ({ reply := addParseErrorReply, stocks := storeValues st }, st)
    | some price =>
      ({ reply := addedReply (pyUpper (parts.getD 1 ""))
            (String.intercalate " " ((parts.drop 2).dropLast)) price,
         stocks := storeValues (storeSet st (pyUpper (parts.getD 1 ""))
            { symbol := pyUpper (parts.getD 1 "")
              name := String.intercalate " " ((parts.drop 2).dropLast)
              price := price, notes := none }) },
       storeSet st (pyUpper (parts.getD 1 ""))
         { symbol := pyUpper (parts.getD 1 "")
           name := String.intercalate " " ((parts.drop 2).dropLast)
           price := price, notes := none })
  else if pyLower (parts.headD "") = "remove" ∧ parts.length = 2 then
    match storeGet st (pyUpper (parts.getD 1 "")) with
    | none =>
      ({ reply := notInListReply (pyUpper (parts.getD 1 "")),
         stocks := storeValues st }, st)
    | some _ =>
      ({ reply := removedReply (pyUpper (parts.getD 1 "")),
         stocks := storeValues (storeDel st (pyUpper (parts.getD 1 ""))) },
       storeDel st (pyUpper (parts.getD 1 "")))
  else if pyLower (parts.headD "") = "update" ∧ parts.length = 3 then
    match storeGet st (pyUpper (parts.getD 1 "")) with
    | none =>
      ({ reply := notInListReply (pyUpper (parts.getD 1 "")),
         stocks := storeValues st }, st)
    | some existing =>
      match pf (parts.getD 2 "") with
      | none => ({ reply := updateParseErrorReply, stocks := storeValues st }, st)
      | some price =>
        ({ reply := updatedReply (pyUpper (parts.getD 1 "")) price,
           stocks := storeValues (storeSet st (pyUpper (parts.getD 1 ""))
             { existing with price := price }) },
         storeSet st (pyUpper (parts.getD 1 "")) { existing with price := price })
  else
    ({ reply := helpReply, stocks := storeValues st }, st)

/-- The `chat` endpoint of `src/backend/__init__.py`: trim the message,
answer `"list"` (case-insensitively) with the count, otherwise dispatch on
the whitespace-split tokens. Returns the response together with the store
after the call. -/
def chat (pf : String → Option Rat) (st : Store) (message : String) :
    ChatResponse × Store :=
  if pyLower (pyStrip message) = "list" then
    ({ reply := listReply st.length, stocks := storeValues st }, st)
  else
    chatDispatch pf st (pySplit (pyStrip message))

/-! ### The earnings normalizer -/

/-- A cell value of a raw row: Python `None`, a present `float`-convertible
value, or a present non-null value rejected by `float`. -/
inductive PyVal where
  | none : PyVal
  | num : Rat → PyVal
  | other : PyVal
deriving DecidableEq, Repr

abbrev RowFields := List (String × PyVal)

/-- `key in row and row[key]` for a raw row (dict lookup). -/
def rowGet : RowFields → String → Option PyVal
  | [], _ => Option.none
  | (k', v) :: rest, k => if k' = k then some v else rowGet rest k

/-- One raw event row: the parsed calendar date of its index (`none` when
the source loop's date parsing fails and the row is dropped) and its
named fields. -/
structure RawRow where
  date? : Option Int
  fields : RowFields
deriving DecidableEq, Repr

/-- Outcome of the external query for one symbol: an exception escaping
the fetch, `df is None or df.empty`, or the iterated rows. -/
inductive QueryResult where
  | raise : QueryResult
  | nodata : QueryResult
  | rows : List RawRow → QueryResult
deriving DecidableEq, Repr

structure PastEvent where
  date : Int
  eps_estimate : Option Rat
  eps_actual : Option Rat
  surprise_percent : Option Rat
deriving DecidableEq, Repr

structure EarningsEntry where
  symbol : String
  next_earnings_date : Option Int
  next_earnings_estimate : Option Rat
  past_earnings : List PastEvent
deriving DecidableEq, Repr

def defaultEntry (sym : String) : EarningsEntry :=
  { symbol := sym
    next_earnings_date := Option.none
    next_earnings_estimate := Option.none
    past_earnings := [] }

def epsEstimateKeys : List String :=
  ["EPS Estimate", "epsestimate", "Estimate", "estimate"]

def epsActualKeys : List String :=
  ["Reported EPS", "reportedEPS", "epsactual", "actual"]

def surpriseKeys : List String :=
  ["Surprise(%)", "surprise", "surprise_percent"]

/-- Outcome of `float(row[key])` guarded by `key in row and row[key] is
not None`: the converted value when the cell is present, non-null and
convertible, otherwise nothing. Used to state extraction properties. -/
def convVal : Option PyVal → Option Rat
  | some (PyVal.num q) => some q
  | _ => Option.none

/-- The extraction loop `for key in (...): if key in row and row[key] is
not None: try: x = float(row[key]); break; except: continue`. -/
def firstFloat : List String → RowFields → Option Rat
  | [], _ => Option.none
  | k :: ks, row =>
    match rowGet row k with
    | some (PyVal.num q) => some q
    | _ => firstFloat ks row

/-- The `rows` list built from `df.iterrows()`: rows with unparseable
dates are silently dropped. -/
def datedPairs (rs : List RawRow) : List (Int × RowFields) :=
  rs.filterMap (fun r => (RawRow.date? r).map (fun d => (d, r.fields)))

/-- Next-event date and estimate from the ascending-sorted rows:
`future_rows = [(d, r) for d, r in rows if d >= today]`, then the head. -/
def nextInfo (today : Int) (sorted : List (Int × RowFields)) :
    Option Int × Option Rat :=
  match sorted.filter (fun p => decide (today ≤ p.1)) with
  | [] => (Option.none, Option.none)
  | (d, row) :: _ => (some d, firstFloat epsEstimateKeys row)

def mkPastEvent (d : Int) (row : RowFields) : PastEvent :=
  { date := d
    eps_estimate := firstFloat epsEstimateKeys row
    eps_actual := firstFloat epsActualKeys row
    surprise_percent := firstFloat surpriseKeys row }

/-- Past-event selection from the ascending-sorted rows: `past_rows`
(date < today), `max_past = max(num - 1, 0)`, and if both positive and
nonempty, the `max_past` first elements of the descending resort. -/
def pastInfo (today num : Int) (sorted : List (Int × RowFields)) :
    List PastEvent :=
  if 0 < max (num - 1) 0 ∧ sorted.filter (fun p => decide (p.1 < today)) ≠ [] then
    (((sorted.filter (fun p => decide (p.1 < today))).mergeSort
        (fun a b => decide (b.1 ≤ a.1))).take (max (num - 1) 0).toNat).map
      (fun p => mkPastEvent p.1 p.2)
  else []

/-- Per-symbol processing of a successful fetch (`num` already
normalized): empty row list falls back to the default entry, otherwise
sort ascending by date and derive next/past information. -/
def processRows (today num : Int) (sym : String) (rs : List RawRow) :
    EarningsEntry :=
  if datedPairs rs = [] then defaultEntry sym
  else
    { symbol := sym
      next_earnings_date :=
        (nextInfo today ((datedPairs rs).mergeSort (fun a b => decide (a.1 ≤ b.1)))).1
      next_earnings_estimate :=
        (nextInfo today ((datedPairs rs).mergeSort (fun a b => decide (a.1 ≤ b.1)))).2
      past_earnings :=
        pastInfo today num ((datedPairs rs).mergeSort (fun a b => decide (a.1 ≤ b.1))) }

/-- `if num <= 0: num = 1` at the top of `get_earnings_calendar`. -/
def effNum (num : Int) : Int :=
  if num ≤ 0 then 1 else num

/-- The `limit` passed to `get_earnings_dates`: `max(num + 4, 8)` with the
normalized `num`. -/
def fetchLimit (num : Int) : Int :=
  max (effNum num + 4) 8

/-- `sym = (sym or "").strip(); if not sym: continue; sym.upper()`. -/
def normalizeSymbols (symbols : List String) : List String :=
  symbols.filterMap (fun s =>
    if pyStrip s = "" then Option.none else some (pyUpper (pyStrip s)))

/-- `get_earnings_calendar` of `src/scripts/earnings_data.py`, with the
external query as the `fetch` parameter and the reference date `today`
captured once per call. -/
def get_earnings_calendar (fetch : String → Int → QueryResult) (today : Int)
    (symbols : List String) (num : Int) : List EarningsEntry :=
  (normalizeSymbols symbols).map (fun sym =>
    match fetch sym (fetchLimit num) with
    | QueryResult.raise => defaultEntry sym
    | QueryResult.nodata => defaultEntry sym
    | QueryResult.rows rs => processRows today (effNum num) sym rs)

/-! ### Helper lemmas: store -/

theorem storeGet_storeSet_self (st : Store) (k : String) (v : Stock) :
    storeGet (storeSet st k v) k = some v := by
  induction st with
  | nil => simp [storeSet, storeGet]
  | cons hd tl ih =>
    obtain ⟨k', v'⟩ := hd
    by_cases h : k' = k <;> simp [storeSet, storeGet, h, ih]

theorem storeGet_storeSet_ne (st : Store) (k k' : String) (v : Stock)
    (h : k' ≠ k) : storeGet (storeSet st k v) k' = storeGet st k' := by
  have hne : ¬ k = k' := fun e => h (Eq.symm e)
  induction st with
  | nil => simp [storeSet, storeGet, hne]
  | cons hd tl ih =>
    obtain ⟨k₀, v₀⟩ := hd
    by_cases h₀ : k₀ = k
    · subst h₀
      simp [storeSet, storeGet, hne]
    · simp [storeSet, storeGet, h₀, ih]

/-! ### Helper lemmas: Python string splitting -/

theorem wordsAux_of_no_ws (l : List Char) (h : ∀ c ∈ l, c.isWhitespace = false) :
    ∀ acc, wordsAux acc l = if acc = [] ∧ l = [] then [] else [acc.reverse ++ l] := by
  induction l with
  | nil =>
    intro acc
    by_cases hacc : acc = [] <;> simp [wordsAux, hacc]
  | cons c cs ih =>
    intro acc
    have hc : c.isWhitespace = false := h c (List.mem_cons_self c cs)
    have hcs : ∀ x ∈ cs, x.isWhitespace = false :=
      fun x hx => h x (List.mem_cons_of_mem c hx)
    simp only [wordsAux, hc, Bool.false_eq_true, if_false, ih hcs (c :: acc)]
    simp

theorem no_ws_of_pyLower_list (s : String) (h : pyLower s = "list") :
    ∀ c ∈ s.data, c.isWhitespace = false := by
  intro c hc
  have hmap : s.data.map Char.toLower = "list".data := congrArg String.data h
  have hmem : Char.toLower c ∈ "list".data :=
    hmap ▸ List.mem_map_of_mem Char.toLower hc
  by_contra hw
  rw [Bool.not_eq_false] at hw
  have hcases : c = ' ' ∨ c = '\t' ∨ c = '\r' ∨ c = '\n' := by
    simpa [Char.isWhitespace, or_assoc] using hw
  rcases hcases with rfl | rfl | rfl | rfl <;> revert hmem <;> decide

/-- If the (trimmed) text lower-cases to `"list"`, splitting yields the
text as the single token: the `"list"` branch of `chat` and the dispatch
branches are mutually exclusive. -/
theorem pySplit_of_pyLower_list (s : String) (h : pyLower s = "list") :
    pySplit s = [s] := by
  have hmap : s.data.map Char.toLower = "list".data := congrArg String.data h
  have hne : s.data ≠ [] := by
    intro he
    rw [he] at hmap
    exact absurd hmap.symm (by decide)
  unfold pySplit
  rw [wordsAux_of_no_ws s.data (no_ws_of_pyLower_list s h) []]
  simp [hne]

/-! ### Branch lemmas for `chat` -/

theorem chat_list_branch (pf : String → Option Rat) (st : Store) (message : String)
    (h : pyLower (pyStrip message) = "list") :
    chat pf st message = ({ reply := listReply st.length, stocks := storeValues st }, st) := by
  unfold chat
  rw [if_pos h]

theorem chat_eq_dispatch (pf : String → Option Rat) (st : Store) (message : String)
    (h : pyLower (pyStrip message) ≠ "list") :
    chat pf st message = chatDispatch pf st (pySplit (pyStrip message)) := by
  unfold chat
  rw [if_neg h]

theorem not_list_of_cmd (message : String)
    (h : pyLower ((pySplit (pyStrip message)).headD "") ≠ "list") :
    pyLower (pyStrip message) ≠ "list" := by
  intro hl
  rw [pySplit_of_pyLower_list _ hl] at h
  simp only [List.headD_cons] at h
  exact h hl

theorem not_list_of_len (message : String)
    (h : 2 ≤ (pySplit (pyStrip message)).length) :
    pyLower (pyStrip message) ≠ "list" := by
  intro hl
  rw [pySplit_of_pyLower_list _ hl] at h
  simp at h

theorem chatDispatch_add_parsed (pf : String → Option Rat) (st : Store)
    (parts : List String) (price : Rat)
    (hcmd : pyLower (parts.headD "") = "add") (hlen : 4 ≤ parts.length)
    (hpf : pf (parts.getLastD "") = some price) :
    chatDispatch pf st parts =
      ({ reply := addedReply (pyUpper (parts.getD 1 ""))
            (String.intercalate " " ((parts.drop 2).dropLast)) price,
         stocks := storeValues (storeSet st (pyUpper (parts.getD 1 ""))
            { symbol := pyUpper (parts.getD 1 "")
              name := String.intercalate " " ((parts.drop 2).dropLast)
              price := price, notes := Option.none }) },
       storeSet st (pyUpper (parts.getD 1 ""))
         { symbol := pyUpper (parts.getD 1 "")
           name := String.intercalate " " ((parts.drop 2).dropLast)
           price := price, notes := Option.none }) := by
  have hne : parts ≠ [] := by
    intro he
    rw [he] at hlen
    simp at hlen
  unfold chatDispatch
  rw [if_neg hne, if_pos ⟨hcmd, hlen⟩, hpf]

theorem chatDispatch_add_badprice (pf : String → Option Rat) (st : Store)
    (parts : List String)
    (hcmd : pyLower (parts.headD "") = "add") (hlen : 4 ≤ parts.length)
    (hpf : pf (parts.getLastD "") = Option.none) :
    chatDispatch pf st parts =
      ({ reply := addParseErrorReply, stocks := storeValues st }, st) := by
  have hne : parts ≠ [] := by
    intro he
    rw [he] at hlen
    simp at hlen
  unfold chatDispatch
  rw [if_neg hne, if_pos ⟨hcmd, hlen⟩, hpf]

theorem chatDispatch_remove_absent (pf : String → Option Rat) (st : Store)
    (parts : List String)
    (hcmd : pyLower (parts.headD "") = "remove") (hlen : parts.length = 2)
    (habs : storeGet st (pyUpper (parts.getD 1 "")) = Option.none) :
    chatDispatch pf st parts =
      ({ reply := notInListReply (pyUpper (parts.getD 1 "")),
         stocks := storeValues st }, st) := by
  have hne : parts ≠ [] := by
    intro he
    rw [he] at hlen
    simp at hlen
  have hnadd : ¬(pyLower (parts.headD "") = "add" ∧ 4 ≤ parts.length) := by
    intro hc
    rw [hcmd] at hc
    exact absurd hc.1 (by decide)
  unfold chatDispatch
  rw [if_neg hne, if_neg hnadd, if_pos ⟨hcmd, hlen⟩, habs]

theorem chatDispatch_update_absent (pf : String → Option Rat) (st : Store)
    (parts : List String)
    (hcmd : pyLower (parts.headD "") = "update") (hlen : parts.length = 3)
    (habs : storeGet st (pyUpper (parts.getD 1 "")) = Option.none) :
    chatDispatch pf st parts =
      ({ reply := notInListReply (pyUpper (parts.getD 1 "")),
         stocks := storeValues st }, st) := by
  have hne : parts ≠ [] := by
    intro he
    rw [he] at hlen
    simp at hlen
  have hnadd : ¬(pyLower (parts.headD "") = "add" ∧ 4 ≤ parts.length) := by
    intro hc
    rw [hcmd] at hc
    exact absurd hc.1 (by decide)
  have hnrem : ¬(pyLower (parts.headD "") = "remove" ∧ parts.length = 2) := by
    intro hc
    rw [hcmd] at hc
    exact absurd hc.1 (by decide)
  unfold chatDispatch
  rw [if_neg hne, if_neg hnadd, if_neg hnrem, if_pos ⟨hcmd, hlen⟩, habs]

theorem chatDispatch_update_badprice (pf : String → Option Rat) (st : Store)
    (parts : List String) (existing : Stock)
    (hcmd : pyLower (parts.headD "") = "update") (hlen : parts.length = 3)
    (hget : storeGet st (pyUpper (parts.getD 1 "")) = some existing)
    (hpf : pf (parts.getD 2 "") = Option.none) :
    chatDispatch pf st parts =
      ({ reply := updateParseErrorReply, stocks := storeValues st }, st) := by
  have hne : parts ≠ [] := by
    intro he
    rw [he] at hlen
    simp at hlen
  have hnadd : ¬(pyLower (parts.headD "") = "add" ∧ 4 ≤ parts.length) := by
    intro hc
    rw [hcmd] at hc
    exact absurd hc.1 (by decide)
  have hnrem : ¬(pyLower (parts.headD "") = "remove" ∧ parts.length = 2) := by
    intro hc
    rw [hcmd] at hc
    exact absurd hc.1 (by decide)
  unfold chatDispatch
  rw [if_neg hne, if_neg hnadd, if_neg hnrem, if_pos ⟨hcmd, hlen⟩, hget, hpf]

theorem chatDispatch_update_parsed (pf : String → Option Rat) (st : Store)
    (parts : List String) (existing : Stock) (price : Rat)
    (hcmd : pyLower (parts.headD "") = "update") (hlen : parts.length = 3)
    (hget : storeGet st (pyUpper (parts.getD 1 "")) = some existing)
    (hpf : pf (parts.getD 2 "") = some price) :
    chatDispatch pf st parts =
      ({ reply := updatedReply (pyUpper (parts.getD 1 "")) price,
         stocks := storeValues (storeSet st (pyUpper (parts.getD 1 ""))
           { existing with price := price }) },
       storeSet st (pyUpper (parts.getD 1 "")) { existing with price := price }) := by
  have hne : parts ≠ [] := by
    intro he
    rw [he] at hlen
    simp at hlen
  have hnadd : ¬(pyLower (parts.headD "") = "add" ∧ 4 ≤ parts.length) := by
    intro hc
    rw [hcmd] at hc
    exact absurd hc.1 (by decide)
  have hnrem : ¬(pyLower (parts.headD "") = "remove" ∧ parts.length = 2) := by
    intro hc
    rw [hcmd] at hc
    exact absurd hc.1 (by decide)
  unfold chatDispatch
  rw [if_neg hne, if_neg hnadd, if_neg hnrem, if_pos ⟨hcmd, hlen⟩, hget, hpf]

theorem chatDispatch_help (pf : String → Option Rat) (st : Store)
    (parts : List String) (hne : parts ≠ [])
    (h1 : ¬(pyLower (parts.headD "") = "add" ∧ 4 ≤ parts.length))
    (h2 : ¬(pyLower (parts.headD "") = "remove" ∧ parts.length = 2))
    (h3 : ¬(pyLower (parts.headD "") = "update" ∧ parts.length = 3)) :
    chatDispatch pf st parts = ({ reply := helpReply, stocks := storeValues st }, st) := by
  unfold chatDispatch
  rw [if_neg hne, if_neg h1, if_neg h2, if_neg h3]

/-! ### Claims about the command interpreter -/

/-- Claim C2: for every store state and every chat input of the form
`add SYM NAME... PRICE` with at least 4 whitespace-separated tokens whose
last token parses as a float, after `chat` the store maps the upper-cased
`SYM` to a record whose name is tokens 2..last-1 joined with single
spaces and whose price is the parsed float, regardless of whether `SYM`
was previously present. -/
theorem claim_C2 (pf : String → Option Rat) (st : Store) (message : String) (price : Rat)
    (hcmd : pyLower ((pySplit (pyStrip message)).headD "") = "add")
    (hlen : 4 ≤ (pySplit (pyStrip message)).length)
    (hpf : pf ((pySplit (pyStrip message)).getLastD "") = some price) :
    storeGet (chat pf st message).2 (pyUpper ((pySplit (pyStrip message)).getD 1 "")) =
      some { symbol := pyUpper ((pySplit (pyStrip message)).getD 1 "")
             name := String.intercalate " " (((pySplit (pyStrip message)).drop 2).dropLast)
             price := price
             notes := Option.none } := by
  have hnl : pyLower (pyStrip message) ≠ "list" :=
    not_list_of_len message (le_trans (by norm_num) hlen)
  rw [chat_eq_dispatch pf st message hnl,
      chatDispatch_add_parsed pf st _ price hcmd hlen hpf]
  exact storeGet_storeSet_self st _ _

theorem claim_C2_witness :
    storeGet (chat (fun s => if s = "7" then some 7 else Option.none) []
        "add aapl Apple Inc 7").2 "AAPL" =
      some { symbol := "AAPL", name := "Apple Inc", price := 7, notes := Option.none } :=
  claim_C2 (fun s => if s = "7" then some 7 else Option.none) [] "add aapl Apple Inc 7" 7
    (by decide) (by decide) (by decide)

/-- Claim C6: for every store state containing a symbol and every chat
input `update S PRICE` (exactly 3 tokens, price parseable), `chat`
replaces only the price field of the stored record — symbol, name and
notes are identical before and after — and every other symbol's record is
unchanged. -/
theorem claim_C6 (pf : String → Option Rat) (st : Store) (message : String)
    (existing : Stock) (price : Rat)
    (hcmd : pyLower ((pySplit (pyStrip message)).headD "") = "update")
    (hlen : (pySplit (pyStrip message)).length = 3)
    (hget : storeGet st (pyUpper ((pySplit (pyStrip message)).getD 1 "")) = some existing)
    (hpf : pf ((pySplit (pyStrip message)).getD 2 "") = some price) :
    storeGet (chat pf st message).2 (pyUpper ((pySplit (pyStrip message)).getD 1 "")) =
      some { symbol := existing.symbol, name := existing.name,
             price := price, notes := existing.notes }
    ∧ ∀ k, k ≠ pyUpper ((pySplit (pyStrip message)).getD 1 "") →
        storeGet (chat pf st message).2 k = storeGet st k := by
  have hnl : pyLower (pyStrip message) ≠ "list" :=
    not_list_of_cmd message (by rw [hcmd]; decide)
  rw [chat_eq_dispatch pf st message hnl,
      chatDispatch_update_parsed pf st _ existing price hcmd hlen hget hpf]
  refine ⟨?_, fun k hk => storeGet_storeSet_ne st _ k _ hk⟩
  rw [storeGet_storeSet_self st _ _]

theorem claim_C6_witness :
    storeGet (chat (fun s => if s = "7" then some 7 else Option.none)
        [("MSFT", { symbol := "MSFT", name := "Microsoft", price := 5, notes := Option.none }),
         ("AAPL", { symbol := "AAPL", name := "Apple", price := 3, notes := some "hold" })]
        "update aapl 7").2 "AAPL" =
      some { symbol := "AAPL", name := "Apple", price := 7, notes := some "hold" }
    ∧ ∀ k, k ≠ "AAPL" →
        storeGet (chat (fun s => if s = "7" then some 7 else Option.none)
          [("MSFT", { symbol := "MSFT", name := "Microsoft", price := 5, notes := Option.none }),
           ("AAPL", { symbol := "AAPL", name := "Apple", price := 3, notes := some "hold" })]
          "update aapl 7").2 k =
        storeGet
          [("MSFT", { symbol := "MSFT", name := "Microsoft", price := 5, notes := Option.none }),
           ("AAPL", { symbol := "AAPL", name := "Apple", price := 3, notes := some "hold" })] k :=
  claim_C6 (fun s => if s = "7" then some 7 else Option.none)
    [("MSFT", { symbol := "MSFT", name := "Microsoft", price := 5, notes := Option.none }),
     ("AAPL", { symbol := "AAPL", name := "Apple", price := 3, notes := some "hold" })]
    "update aapl 7"
    { symbol := "AAPL", name := "Apple", price := 3, notes := some "hold" } 7
    (by decide) (by decide) (by decide) (by decide)

/-- Claim C9: on input whose trimmed text equals `"list"` ignoring case,
`chat` does not mutate the store, replies with the current record count,
returns a snapshot of all records, and running it twice in a row yields
identical snapshots. -/
theorem claim_C9 (pf : String → Option Rat) (st : Store) (message : String)
    (h : pyLower (pyStrip message) = "list") :
    (chat pf st message).2 = st ∧
    (chat pf st message).1.reply = listReply st.length ∧
    (chat pf st message).1.stocks = storeValues st ∧
    (chat pf (chat pf st message).2 message).1.stocks = (chat pf st message).1.stocks := by
  rw [chat_list_branch pf st message h]
  refine ⟨rfl, rfl, rfl, ?_⟩
  rw [chat_list_branch pf st message h]

theorem claim_C9_witness :
    (chat (fun _ => Option.none)
        [("AAPL", { symbol := "AAPL", name := "Apple", price := 3, notes := Option.none })]
        " LiSt ").2 =
      [("AAPL", { symbol := "AAPL", name := "Apple", price := 3, notes := Option.none })] ∧
    (chat (fun _ => Option.none)
        [("AAPL", { symbol := "AAPL", name := "Apple", price := 3, notes := Option.none })]
        " LiSt ").1.reply = listReply 1 ∧
    (chat (fun _ => Option.none)
        [("AAPL", { symbol := "AAPL", name := "Apple", price := 3, notes := Option.none })]
        " LiSt ").1.stocks =
      storeValues [("AAPL", { symbol := "AAPL", name := "Apple", price := 3, notes := Option.none })] ∧
    (chat (fun _ => Option.none)
        (chat (fun _ => Option.none)
          [("AAPL", { symbol := "AAPL", name := "Apple", price := 3, notes := Option.none })]
          " LiSt ").2 " LiSt ").1.stocks =
      (chat (fun _ => Option.none)
        [("AAPL", { symbol := "AAPL", name := "Apple", price := 3, notes := Option.none })]
        " LiSt ").1.stocks :=
  claim_C9 (fun _ => Option.none)
    [("AAPL", { symbol := "AAPL", name := "Apple", price := 3, notes := Option.none })]
    " LiSt " (by decide)

/-- Claim C10: every record written by the chat `add` command has
`notes = None`; in particular, when `add` overwrites an existing record,
previously stored notes are discarded. -/
theorem claim_C10 (pf : String → Option Rat) (st : Store) (message : String) (price : Rat)
    (hcmd : pyLower ((pySplit (pyStrip message)).headD "") = "add")
    (hlen : 4 ≤ (pySplit (pyStrip message)).length)
    (hpf : pf ((pySplit (pyStrip message)).getLastD "") = some price) :
    (storeGet (chat pf st message).2
        (pyUpper ((pySplit (pyStrip message)).getD 1 ""))).map Stock.notes =
      some Option.none := by
  have hnl : pyLower (pyStrip message) ≠ "list" :=
    not_list_of_len message (le_trans (by norm_num) hlen)
  rw [chat_eq_dispatch pf st message hnl,
      chatDispatch_add_parsed pf st _ price hcmd hlen hpf,
      storeGet_storeSet_self st _ _]
  rfl

theorem claim_C10_witness :
    (storeGet (chat (fun s => if s = "7" then some 7 else Option.none)
        [("AAPL", { symbol := "AAPL", name := "Old Apple", price := 3, notes := some "keep" })]
        "add AAPL Apple 7").2 "AAPL").map Stock.notes = some Option.none :=
  claim_C10 (fun s => if s = "7" then some 7 else Option.none)
    [("AAPL", { symbol := "AAPL", name := "Old Apple", price := 3, notes := some "keep" })]
    "add AAPL Apple 7" 7 (by decide) (by decide) (by decide)

/-- Case analysis behind the help branch: an unknown first token, or a
known command word with the wrong token count, falls through every
dispatch test. -/
theorem chatDispatch_help_of_case (pf : String → Option Rat) (st : Store)
    (parts : List String) (hne : parts ≠ [])
    (hcase :
      (¬ pyLower (parts.headD "") ∈ (["list", "add", "remove", "update"] : List String)) ∨
      (pyLower (parts.headD "") = "add" ∧ parts.length < 4) ∨
      (pyLower (parts.headD "") = "remove" ∧ parts.length ≠ 2) ∨
      (pyLower (parts.headD "") = "update" ∧ parts.length ≠ 3)) :
    chatDispatch pf st parts = ({ reply := helpReply, stocks := storeValues st }, st) ∧
    pyLower (parts.headD "") ≠ "list" := by
  have h1 : ¬(pyLower (parts.headD "") = "add" ∧ 4 ≤ parts.length) := by
    rcases hcase with h | ⟨ha, hlt⟩ | ⟨hr, _⟩ | ⟨hu, _⟩
    · intro hc
      exact h (by rw [hc.1]; decide)
    · intro hc
      exact absurd hc.2 (by omega)
    · intro hc
      rw [hr] at hc
      exact absurd hc.1 (by decide)
    · intro hc
      rw [hu] at hc
      exact absurd hc.1 (by decide)
  have h2 : ¬(pyLower (parts.headD "") = "remove" ∧ parts.length = 2) := by
    rcases hcase with h | ⟨ha, _⟩ | ⟨hr, hn⟩ | ⟨hu, _⟩
    · intro hc
      exact h (by rw [hc.1]; decide)
    · intro hc
      rw [ha] at hc
      exact absurd hc.1 (by decide)
    · intro hc
      exact hn hc.2
    · intro hc
      rw [hu] at hc
      exact absurd hc.1 (by decide)
  have h3 : ¬(pyLower (parts.headD "") = "update" ∧ parts.length = 3) := by
    rcases hcase with h | ⟨ha, _⟩ | ⟨hr, _⟩ | ⟨hu, hn⟩
    · intro hc
      exact h (by rw [hc.1]; decide)
    · intro hc
      rw [ha] at hc
      exact absurd hc.1 (by decide)
    · intro hc
      rw [hr] at hc
      exact absurd hc.1 (by decide)
    · intro hc
      exact hn hc.2
  have hcl : pyLower (parts.headD "") ≠ "list" := by
    rcases hcase with h | ⟨ha, _⟩ | ⟨hr, _⟩ | ⟨hu, _⟩
    · intro e
      exact h (by rw [e]; decide)
    · rw [ha]
      decide
    · rw [hr]
      decide
    · rw [hu]
      decide
  exact ⟨chatDispatch_help pf st parts hne h1 h2 h3, hcl⟩

/-- Claim C8: for every store state and every input whose first token is
not a known command word, or is a known command word with the wrong token
count (`add` with fewer than 4 tokens, `remove` with a token count other
than 2, `update` with a token count other than 3), `chat` returns the
fixed help-text reply, leaves the store unmutated, and returns the
unchanged snapshot. -/
theorem claim_C8 (pf : String → Option Rat) (st : Store) (message : String)
    (hne : pySplit (pyStrip message) ≠ [])
    (hcase :
      (¬ pyLower ((pySplit (pyStrip message)).headD "") ∈
          (["list", "add", "remove", "update"] : List String)) ∨
      (pyLower ((pySplit (pyStrip message)).headD "") = "add" ∧
        (pySplit (pyStrip message)).length < 4) ∨
      (pyLower ((pySplit (pyStrip message)).headD "") = "remove" ∧
        (pySplit (pyStrip message)).length ≠ 2) ∨
      (pyLower ((pySplit (pyStrip message)).headD "") = "update" ∧
        (pySplit (pyStrip message)).length ≠ 3)) :
    (chat pf st message).1.reply = helpReply ∧
    (chat pf st message).2 = st ∧
    (chat pf st message).1.stocks = storeValues st := by
  obtain ⟨hdisp, hcl⟩ := chatDispatch_help_of_case pf st _ hne hcase
  have hnl : pyLower (pyStrip message) ≠ "list" := not_list_of_cmd message hcl
  rw [chat_eq_dispatch pf st message hnl, hdisp]
  exact ⟨rfl, rfl, rfl⟩

theorem claim_C8_witness :
    (chat (fun _ => Option.none)
        [("AAPL", { symbol := "AAPL", name := "Apple", price := 3, notes := Option.none })]
        "frobnicate AAPL").1.reply = helpReply ∧
    (chat (fun _ => Option.none)
        [("AAPL", { symbol := "AAPL", name := "Apple", price := 3, notes := Option.none })]
        "frobnicate AAPL").2 =
      [("AAPL", { symbol := "AAPL", name := "Apple", price := 3, notes := Option.none })] ∧
    (chat (fun _ => Option.none)
        [("AAPL", { symbol := "AAPL", name := "Apple", price := 3, notes := Option.none })]
        "frobnicate AAPL").1.stocks =
      storeValues [("AAPL", { symbol := "AAPL", name := "Apple", price := 3, notes := Option.none })] :=
  claim_C8 (fun _ => Option.none)
    [("AAPL", { symbol := "AAPL", name := "Apple", price := 3, notes := Option.none })]
    "frobnicate AAPL" (by decide) (Or.inl (by decide))

/-- Claim C7 (counterexample to the claim as stated): the claim asserts
that for every `update` input whose price token does not parse, the reply
is the parse-error string. On `update XYZ abc` with `XYZ` absent from the
store — the price token `abc` does not parse — the code replies
`XYZ is not in your list.` instead: the absent-symbol check precedes
price parsing. -/
theorem claim_C7_counterexample :
    pyLower ((pySplit (pyStrip "update XYZ abc")).headD "") = "update" ∧
    (pySplit (pyStrip "update XYZ abc")).length = 3 ∧
    (fun _ => (Option.none : Option Rat)) ((pySplit (pyStrip "update XYZ abc")).getD 2 "") =
      Option.none ∧
    (chat (fun _ => Option.none) [] "update XYZ abc").1.reply ≠ updateParseErrorReply ∧
    (chat (fun _ => Option.none) [] "update XYZ abc").1.reply = notInListReply "XYZ" := by
  decide

/-- Claim C7 (amended): `chat` never raises to the caller on bad user
input. For `add` with an unparseable price, and for `update` with an
unparseable price whose symbol is present in the store, the store is
unchanged and the reply is the parse-error string; for `remove` or
`update` naming an absent symbol the store is unchanged and the reply
says the symbol is not in the list (for `update`, the absent-symbol check
takes precedence over price parsing); in all these cases the returned
snapshot equals the store before the call. -/
theorem claim_C7 :
    (∀ (pf : String → Option Rat) (st : Store) (message : String),
      pyLower ((pySplit (pyStrip message)).headD "") = "add" →
      4 ≤ (pySplit (pyStrip message)).length →
      pf ((pySplit (pyStrip message)).getLastD "") = Option.none →
      (chat pf st message).1.reply = addParseErrorReply ∧
      (chat pf st message).2 = st ∧
      (chat pf st message).1.stocks = storeValues st)
    ∧ (∀ (pf : String → Option Rat) (st : Store) (message : String) (existing : Stock),
      pyLower ((pySplit (pyStrip message)).headD "") = "update" →
      (pySplit (pyStrip message)).length = 3 →
      storeGet st (pyUpper ((pySplit (pyStrip message)).getD 1 "")) = some existing →
      pf ((pySplit (pyStrip message)).getD 2 "") = Option.none →
      (chat pf st message).1.reply = updateParseErrorReply ∧
      (chat pf st message).2 = st ∧
      (chat pf st message).1.stocks = storeValues st)
    ∧ (∀ (pf : String → Option Rat) (st : Store) (message : String),
      pyLower ((pySplit (pyStrip message)).headD "") = "remove" →
      (pySplit (pyStrip message)).length = 2 →
      storeGet st (pyUpper ((pySplit (pyStrip message)).getD 1 "")) = Option.none →
      (chat pf st message).1.reply =
        notInListReply (pyUpper ((pySplit (pyStrip message)).getD 1 "")) ∧
      (chat pf st message).2 = st ∧
      (chat pf st message).1.stocks = storeValues st)
    ∧ (∀ (pf : String → Option Rat) (st : Store) (message : String),
      pyLower ((pySplit (pyStrip message)).headD "") = "update" →
      (pySplit (pyStrip message)).length = 3 →
      storeGet st (pyUpper ((pySplit (pyStrip message)).getD 1 "")) = Option.none →
      (chat pf st message).1.reply =
        notInListReply (pyUpper ((pySplit (pyStrip message)).getD 1 "")) ∧
      (chat pf st message).2 = st ∧
      (chat pf st message).1.stocks = storeValues st) := by
  refine ⟨?_, ?_, ?_, ?_⟩
  · intro pf st message hcmd hlen hpf
    have hnl : pyLower (pyStrip message) ≠ "list" :=
      not_list_of_len message (le_trans (by norm_num) hlen)
    rw [chat_eq_dispatch pf st message hnl,
        chatDispatch_add_badprice pf st _ hcmd hlen hpf]
    exact ⟨rfl, rfl, rfl⟩
  · intro pf st message existing hcmd hlen hget hpf
    have hnl : pyLower (pyStrip message) ≠ "list" :=
      not_list_of_cmd message (by rw [hcmd]; decide)
    rw [chat_eq_dispatch pf st message hnl,
        chatDispatch_update_badprice pf st _ existing hcmd hlen hget hpf]
    exact ⟨rfl, rfl, rfl⟩
  · intro pf st message hcmd hlen habs
    have hnl : pyLower (pyStrip message) ≠ "list" :=
      not_list_of_cmd message (by rw [hcmd]; decide)
    rw [chat_eq_dispatch pf st message hnl,
        chatDispatch_remove_absent pf st _ hcmd hlen habs]
    exact ⟨rfl, rfl, rfl⟩
  · intro pf st message hcmd hlen habs
    have hnl : pyLower (pyStrip message) ≠ "list" :=
      not_list_of_cmd message (by rw [hcmd]; decide)
    rw [chat_eq_dispatch pf st message hnl,
        chatDispatch_update_absent pf st _ hcmd hlen habs]
    exact ⟨rfl, rfl, rfl⟩

theorem claim_C7_witness :
    ((chat (fun _ => Option.none) [] "add AAPL Apple xx").1.reply = addParseErrorReply ∧
      (chat (fun _ => Option.none) [] "add AAPL Apple xx").2 = [] ∧
      (chat (fun _ => Option.none) [] "add AAPL Apple xx").1.stocks = storeValues []) ∧
    ((chat (fun _ => Option.none)
        [("AAPL", { symbol := "AAPL", name := "Apple", price := 3, notes := Option.none })]
        "update aapl zz").1.reply = updateParseErrorReply ∧
      (chat (fun _ => Option.none)
        [("AAPL", { symbol := "AAPL", name := "Apple", price := 3, notes := Option.none })]
        "update aapl zz").2 =
        [("AAPL", { symbol := "AAPL", name := "Apple", price := 3, notes := Option.none })] ∧
      (chat (fun _ => Option.none)
        [("AAPL", { symbol := "AAPL", name := "Apple", price := 3, notes := Option.none })]
        "update aapl zz").1.stocks =
        storeValues [("AAPL", { symbol := "AAPL", name := "Apple", price := 3, notes := Option.none })]) ∧
    ((chat (fun _ => Option.none) [] "remove XYZ").1.reply = notInListReply "XYZ" ∧
      (chat (fun _ => Option.none) [] "remove XYZ").2 = [] ∧
      (chat (fun _ => Option.none) [] "remove XYZ").1.stocks = storeValues []) ∧
    ((chat (fun _ => Option.none) [] "update XYZ abc").1.reply = notInListReply "XYZ" ∧
      (chat (fun _ => Option.none) [] "update XYZ abc").2 = [] ∧
      (chat (fun _ => Option.none) [] "update XYZ abc").1.stocks = storeValues []) :=
  ⟨claim_C7.1 (fun _ => Option.none) [] "add AAPL Apple xx"
      (by decide) (by decide) (by decide),
   claim_C7.2.1 (fun _ => Option.none)
      [("AAPL", { symbol := "AAPL", name := "Apple", price := 3, notes := Option.none })]
      "update aapl zz" { symbol := "AAPL", name := "Apple", price := 3, notes := Option.none }
      (by decide) (by decide) (by decide) (by decide),
   claim_C7.2.2.1 (fun _ => Option.none) [] "remove XYZ"
      (by decide) (by decide) (by decide),
   claim_C7.2.2.2 (fun _ => Option.none) [] "update XYZ abc"
      (by decide) (by decide) (by decide)⟩

/-! ### Claims about the earnings normalizer -/

theorem processRows_symbol (today num : Int) (sym : String) (rs : List RawRow) :
    (processRows today num sym rs).symbol = sym := by
  unfold processRows
  by_cases hd : datedPairs rs = [] <;> simp [hd, defaultEntry]

theorem map_symbol_get (fetch : String → Int → QueryResult) (today num : Int)
    (L : List String) :
    (L.map (fun sym =>
      match fetch sym (fetchLimit num) with
      | QueryResult.raise => defaultEntry sym
      | QueryResult.nodata => defaultEntry sym
      | QueryResult.rows rs => processRows today (effNum num) sym rs)).map
        EarningsEntry.symbol = L := by
  induction L with
  | nil => rfl
  | cons s L ih =>
    simp only [List.map_cons, ih, List.cons.injEq, and_true]
    cases hq : fetch s (fetchLimit num) with
    | raise => rfl
    | nodata => rfl
    | rows rs => exact processRows_symbol today (effNum num) s rs

/-- Claim C1: a failed or empty external query for a symbol does not
abort the batch — that symbol's entry has all-empty fields — and the
result has exactly one entry per normalized (trimmed, non-empty,
upper-cased) input symbol, in input order. -/
theorem claim_C1 (fetch : String → Int → QueryResult) (today : Int)
    (symbols : List String) (num : Int) :
    (get_earnings_calendar fetch today symbols num).map EarningsEntry.symbol =
      normalizeSymbols symbols
    ∧ ∀ i, i < (normalizeSymbols symbols).length →
        (fetch ((normalizeSymbols symbols).getD i "") (fetchLimit num) = QueryResult.raise ∨
         fetch ((normalizeSymbols symbols).getD i "") (fetchLimit num) = QueryResult.nodata) →
        (get_earnings_calendar fetch today symbols num).getD i (defaultEntry "") =
          defaultEntry ((normalizeSymbols symbols).getD i "") := by
  constructor
  · unfold get_earnings_calendar
    exact map_symbol_get fetch today num (normalizeSymbols symbols)
  · intro i hi hbad
    unfold get_earnings_calendar
    have hsym : (normalizeSymbols symbols).getD i "" = (normalizeSymbols symbols)[i] := by
      rw [List.getD_eq_getElem?_getD, List.getElem?_eq_getElem hi]
      rfl
    rw [hsym] at hbad
    rw [List.getD_eq_getElem?_getD, List.getElem?_map, List.getElem?_eq_getElem hi]
    rcases hbad with hb | hb <;> simp [hb, List.getElem?_eq_getElem hi]

theorem claim_C1_witness :
    (get_earnings_calendar (fun _ _ => QueryResult.raise) 0 ["aapl", " ", "msft"] 3).map
        EarningsEntry.symbol = normalizeSymbols ["aapl", " ", "msft"]
    ∧ (get_earnings_calendar (fun _ _ => QueryResult.raise) 0 ["aapl", " ", "msft"] 3).getD 1
        (defaultEntry "") =
      defaultEntry ((normalizeSymbols ["aapl", " ", "msft"]).getD 1 "") :=
  ⟨(claim_C1 (fun _ _ => QueryResult.raise) 0 ["aapl", " ", "msft"] 3).1,
   (claim_C1 (fun _ _ => QueryResult.raise) 0 ["aapl", " ", "msft"] 3).2 1
     (by decide) (Or.inl rfl)⟩

/-- Claim C3: for every symbols input and every `num ≤ 0`,
`get_earnings_calendar` returns exactly the same result as the call with
`num = 1`; and for `num = 1` every returned entry has empty
`past_earnings`, whatever the source returns. -/
theorem claim_C3 :
    (∀ (fetch : String → Int → QueryResult) (today : Int)
        (symbols : List String) (num : Int), num ≤ 0 →
      get_earnings_calendar fetch today symbols num =
        get_earnings_calendar fetch today symbols 1)
    ∧ (∀ (fetch : String → Int → QueryResult) (today : Int) (symbols : List String),
      ∀ e ∈ get_earnings_calendar fetch today symbols 1, e.past_earnings = []) := by
  constructor
  · intro fetch today symbols num h
    have he : effNum num = effNum 1 := by simp [effNum, h]
    unfold get_earnings_calendar fetchLimit
    simp only [he]
  · intro fetch today symbols e he
    unfold get_earnings_calendar at he
    rw [List.mem_map] at he
    obtain ⟨sym, _, rfl⟩ := he
    cases hq : fetch sym (fetchLimit 1) with
    | raise => simp [defaultEntry]
    | nodata => simp [defaultEntry]
    | rows rs =>
      simp only
      unfold processRows
      by_cases hd : datedPairs rs = []
      · simp [hd, defaultEntry]
      · simp only [hd, if_neg]
        simp [pastInfo, effNum]

theorem claim_C3_witness :
    get_earnings_calendar (fun _ _ => QueryResult.nodata) 0 ["aapl"] (-5) =
      get_earnings_calendar (fun _ _ => QueryResult.nodata) 0 ["aapl"] 1 ∧
    (defaultEntry "AAPL").past_earnings = [] :=
  ⟨claim_C3.1 (fun _ _ => QueryResult.nodata) 0 ["aapl"] (-5) (by norm_num),
   claim_C3.2 (fun _ _ => QueryResult.nodata) 0 ["aapl"] (defaultEntry "AAPL") (by decide)⟩

theorem firstFloat_cons_of_fail (k : String) (ks : List String) (row : RowFields)
    (h : convVal (rowGet row k) = Option.none) :
    firstFloat (k :: ks) row = firstFloat ks row := by
  cases hk : rowGet row k with
  | none => simp [firstFloat, hk]
  | some val =>
    cases val with
    | none => simp [firstFloat, hk]
    | num q =>
      rw [hk] at h
      exact absurd h (by simp [convVal])
    | other => simp [firstFloat, hk]

theorem firstFloat_cons_of_num (k : String) (ks : List String) (row : RowFields)
    (q : Rat) (h : rowGet row k = some (PyVal.num q)) :
    firstFloat (k :: ks) row = some q := by
  simp [firstFloat, h]

theorem firstFloat_eq_some_iff (keys : List String) (row : RowFields) (v : Rat) :
    firstFloat keys row = some v ↔
      ∃ pre k₀ post, keys = pre ++ k₀ :: post ∧
        convVal (rowGet row k₀) = some v ∧
        ∀ k' ∈ pre, convVal (rowGet row k') = Option.none := by
  induction keys with
  | nil =>
    simp only [firstFloat]
    constructor
    · intro h
      exact absurd h (by simp)
    · rintro ⟨pre, k₀, post, he, -, -⟩
      exact absurd he.symm (List.append_ne_nil_of_right_ne_nil pre (by simp))
  | cons k ks ih =>
    by_cases hk : ∃ q, rowGet row k = some (PyVal.num q)
    · obtain ⟨q, hq⟩ := hk
      rw [firstFloat_cons_of_num k ks row q hq]
      constructor
      · intro h
        refine ⟨[], k, ks, rfl, ?_, by simp⟩
        rw [hq]
        simpa [convVal] using h
      · rintro ⟨pre, k₀, post, he, hv, hpre⟩
        cases pre with
        | nil =>
          simp only [List.nil_append, List.cons.injEq] at he
          rw [← he.1, hq] at hv
          simpa [convVal] using hv
        | cons p pre' =>
          simp only [List.cons_append, List.cons.injEq] at he
          have : convVal (rowGet row k) = Option.none :=
            he.1 ▸ hpre p (List.mem_cons_self p pre')
          rw [hq] at this
          exact absurd this (by simp [convVal])
    · have hfail : convVal (rowGet row k) = Option.none := by
        cases hr : rowGet row k with
        | none => simp [convVal]
        | some val =>
          cases val with
          | none => simp [convVal]
          | num q => exact absurd ⟨q, hr⟩ hk
          | other => simp [convVal]
      rw [firstFloat_cons_of_fail k ks row hfail, ih]
      constructor
      · rintro ⟨pre, k₀, post, he, hv, hpre⟩
        refine ⟨k :: pre, k₀, post, by rw [he]; rfl, hv, ?_⟩
        intro k' hk'
        rcases List.mem_cons.mp hk' with rfl | h'
        · exact hfail
        · exact hpre k' h'
      · rintro ⟨pre, k₀, post, he, hv, hpre⟩
        cases pre with
        | nil =>
          simp only [List.nil_append, List.cons.injEq] at he
          rw [← he.1] at hv
          rw [hfail] at hv
          exact absurd hv (by simp)
        | cons p pre' =>
          simp only [List.cons_append, List.cons.injEq] at he
          exact ⟨pre', k₀, post, he.2, hv, fun k' h' =>
            hpre k' (List.mem_cons_of_mem p h')⟩

theorem firstFloat_eq_none_iff (keys : List String) (row : RowFields) :
    firstFloat keys row = Option.none ↔
      ∀ k ∈ keys, convVal (rowGet row k) = Option.none := by
  induction keys with
  | nil => simp [firstFloat]
  | cons k ks ih =>
    by_cases hk : ∃ q, rowGet row k = some (PyVal.num q)
    · obtain ⟨q, hq⟩ := hk
      rw [firstFloat_cons_of_num k ks row q hq]
      simp only [List.mem_cons]
      constructor
      · intro h
        exact absurd h (by simp)
      · intro h
        have := h k (Or.inl rfl)
        rw [hq] at this
        exact absurd this (by simp [convVal])
    · have hfail : convVal (rowGet row k) = Option.none := by
        cases hr : rowGet row k with
        | none => simp [convVal]
        | some val =>
          cases val with
          | none => simp [convVal]
          | num q => exact absurd ⟨q, hr⟩ hk
          | other => simp [convVal]
      rw [firstFloat_cons_of_fail k ks row hfail, ih]
      constructor
      · intro h k' hk'
        rcases List.mem_cons.mp hk' with rfl | h'
        · exact hfail
        · exact h k' h'
      · intro h k' hk'
        exact h k' (List.mem_cons_of_mem k hk')

/-- Claim C5: each of eps_estimate, eps_actual, surprise_percent (and the
next event's estimate) is extracted independently by scanning its own
ordered list of candidate field names — exactly the lists of the source —
taking the first present, non-null, float-convertible value and yielding
None when no candidate converts; in particular a row containing both
`"epsestimate"` and `"EPS Estimate"` takes the `"EPS Estimate"` value. -/
theorem claim_C5 :
    (epsEstimateKeys = ["EPS Estimate", "epsestimate", "Estimate", "estimate"] ∧
     epsActualKeys = ["Reported EPS", "reportedEPS", "epsactual", "actual"] ∧
     surpriseKeys = ["Surprise(%)", "surprise", "surprise_percent"])
    ∧ (∀ (d : Int) (row : RowFields),
        mkPastEvent d row =
          { date := d
            eps_estimate := firstFloat epsEstimateKeys row
            eps_actual := firstFloat epsActualKeys row
            surprise_percent := firstFloat surpriseKeys row })
    ∧ (∀ (keys : List String) (row : RowFields) (v : Rat),
        firstFloat keys row = some v ↔
          ∃ pre k₀ post, keys = pre ++ k₀ :: post ∧
            convVal (rowGet row k₀) = some v ∧
            ∀ k' ∈ pre, convVal (rowGet row k') = Option.none)
    ∧ (∀ (keys : List String) (row : RowFields),
        firstFloat keys row = Option.none ↔
          ∀ k ∈ keys, convVal (rowGet row k) = Option.none)
    ∧ (∀ (row : RowFields) (v : Rat),
        rowGet row "EPS Estimate" = some (PyVal.num v) →
        firstFloat epsEstimateKeys row = some v) :=
  ⟨⟨rfl, rfl, rfl⟩,
   fun _ _ => rfl,
   firstFloat_eq_some_iff,
   firstFloat_eq_none_iff,
   fun row v h => firstFloat_cons_of_num _ _ row v h⟩

theorem claim_C5_witness :
    firstFloat epsEstimateKeys
      [("epsestimate", PyVal.num 1), ("EPS Estimate", PyVal.num 2)] = some 2 ∧
    firstFloat surpriseKeys
      [("Surprise(%)", PyVal.none), ("surprise", PyVal.other)] = Option.none :=
  ⟨claim_C5.2.2.2.2 [("epsestimate", PyVal.num 1), ("EPS Estimate", PyVal.num 2)] 2
      (by decide),
   (claim_C5.2.2.2.1 surpriseKeys
      [("Surprise(%)", PyVal.none), ("surprise", PyVal.other)]).mpr (by decide)⟩

theorem datedPairs_map_fst (rs : List RawRow) :
    (datedPairs rs).map Prod.fst = rs.filterMap RawRow.date? := by
  induction rs with
  | nil => rfl
  | cons r rest ih =>
    unfold datedPairs at ih ⊢
    cases h : RawRow.date? r <;> simp [List.filterMap_cons, h, ih]

theorem ascPairs_trans (a b c : Int × RowFields) :
    decide (a.1 ≤ b.1) → decide (b.1 ≤ c.1) → decide (a.1 ≤ c.1) := by
  simp only [decide_eq_true_eq]
  omega

theorem ascPairs_total (a b : Int × RowFields) :
    decide (a.1 ≤ b.1) || decide (b.1 ≤ a.1) := by
  simp only [Bool.or_eq_true, decide_eq_true_eq]
  omega

theorem descPairs_trans (a b c : Int × RowFields) :
    decide (b.1 ≤ a.1) → decide (c.1 ≤ b.1) → decide (c.1 ≤ a.1) := by
  simp only [decide_eq_true_eq]
  omega

theorem descPairs_total (a b : Int × RowFields) :
    decide (b.1 ≤ a.1) || decide (a.1 ≤ b.1) := by
  simp only [Bool.or_eq_true, decide_eq_true_eq]
  omega

theorem descInt_trans (a b c : Int) :
    decide (b ≤ a) → decide (c ≤ b) → decide (c ≤ a) := by
  simp only [decide_eq_true_eq]
  omega

theorem descInt_total (a b : Int) :
    decide (b ≤ a) || decide (a ≤ b) := by
  simp only [Bool.or_eq_true, decide_eq_true_eq]
  omega

theorem nextInfo_fst_none_iff (today : Int) (dated : List (Int × RowFields)) :
    (nextInfo today (dated.mergeSort (fun a b => decide (a.1 ≤ b.1)))).1 = Option.none ↔
      (dated.map Prod.fst).filter (fun d => decide (today ≤ d)) = [] := by
  have hF : (dated.map Prod.fst).filter (fun d => decide (today ≤ d)) =
      (dated.filter (fun p => decide (today ≤ p.1))).map Prod.fst :=
    List.filter_map Prod.fst dated
  have hpermF :
      List.Perm
        (((dated.mergeSort (fun a b => decide (a.1 ≤ b.1))).filter
          (fun p => decide (today ≤ p.1))).map Prod.fst)
        ((dated.map Prod.fst).filter (fun d => decide (today ≤ d))) := by
    rw [hF]
    exact ((List.mergeSort_perm dated _).filter _).map Prod.fst
  cases hfut : (dated.mergeSort (fun a b => decide (a.1 ≤ b.1))).filter
      (fun p => decide (today ≤ p.1)) with
  | nil =>
    simp only [nextInfo, hfut]
    rw [hfut] at hpermF
    constructor
    · intro _
      exact hpermF.symm.eq_nil
    · intro _
      trivial
  | cons hd tl =>
    simp only [nextInfo, hfut]
    rw [hfut] at hpermF
    constructor
    · intro h
      exact absurd h (by simp)
    · intro h
      rw [h] at hpermF
      exact absurd hpermF.eq_nil (by simp)

theorem nextInfo_fst_least (today : Int) (dated : List (Int × RowFields)) (d : Int)
    (h : (nextInfo today (dated.mergeSort (fun a b => decide (a.1 ≤ b.1)))).1 = some d) :
    d ∈ (dated.map Prod.fst).filter (fun d => decide (today ≤ d)) ∧
    ∀ x ∈ (dated.map Prod.fst).filter (fun d => decide (today ≤ d)), d ≤ x := by
  have hF : (dated.map Prod.fst).filter (fun d => decide (today ≤ d)) =
      (dated.filter (fun p => decide (today ≤ p.1))).map Prod.fst :=
    List.filter_map Prod.fst dated
  have hpermF :
      List.Perm
        (((dated.mergeSort (fun a b => decide (a.1 ≤ b.1))).filter
          (fun p => decide (today ≤ p.1))).map Prod.fst)
        ((dated.map Prod.fst).filter (fun d => decide (today ≤ d))) := by
    rw [hF]
    exact ((List.mergeSort_perm dated _).filter _).map Prod.fst
  have hsorted :
      ((dated.mergeSort (fun a b => decide (a.1 ≤ b.1))).filter
          (fun p => decide (today ≤ p.1))).Pairwise (fun a b => a.1 ≤ b.1) := by
    have hp := List.sorted_mergeSort ascPairs_trans ascPairs_total dated
    exact ((hp.sublist (List.filter_sublist _)).imp (by simp))
  cases hfut : (dated.mergeSort (fun a b => decide (a.1 ≤ b.1))).filter
      (fun p => decide (today ≤ p.1)) with
  | nil =>
    rw [nextInfo, hfut] at h
    exact absurd h (by simp)
  | cons hd tl =>
    rw [nextInfo, hfut] at h
    simp only [Option.some.injEq] at h
    subst h
    rw [hfut] at hpermF hsorted
    constructor
    · exact hpermF.mem_iff.mp (by simp)
    · intro x hx
      have hx' : x ∈ (hd :: tl).map Prod.fst := hpermF.mem_iff.mpr hx
      rcases List.mem_map.mp hx' with ⟨p, hp, rfl⟩
      rcases List.mem_cons.mp hp with rfl | hp'
      · exact le_refl _
      · exact (List.pairwise_cons.mp hsorted).1 p hp'

theorem maxPast_effNum (num : Int) : max (effNum num - 1) 0 = max (num - 1) 0 := by
  unfold effNum
  split_ifs with h
  · rw [show (1 : Int) - 1 = 0 from rfl, max_self, eq_comm, max_eq_right]
    omega
  · rfl

theorem pastInfo_dates (today num : Int) (dated : List (Int × RowFields)) :
    (pastInfo today num (dated.mergeSort (fun a b => decide (a.1 ≤ b.1)))).map
        PastEvent.date =
      (((dated.map Prod.fst).filter (fun d => decide (d < today))).mergeSort
        (fun a b => decide (b ≤ a))).take (max (num - 1) 0).toNat := by
  have hP : (dated.map Prod.fst).filter (fun d => decide (d < today)) =
      (dated.filter (fun p => decide (p.1 < today))).map Prod.fst :=
    List.filter_map Prod.fst dated
  have hpermP :
      List.Perm
        (((dated.mergeSort (fun a b => decide (a.1 ≤ b.1))).filter
          (fun p => decide (p.1 < today))).map Prod.fst)
        ((dated.map Prod.fst).filter (fun d => decide (d < today))) := by
    rw [hP]
    exact ((List.mergeSort_perm dated _).filter _).map Prod.fst
  unfold pastInfo
  split_ifs with hcond
  · obtain ⟨hk, hne⟩ := hcond
    rw [List.map_map, List.map_take]
    rw [show (PastEvent.date ∘ fun p : Int × RowFields => mkPastEvent p.1 p.2) =
        (fun p : Int × RowFields => p.1) from rfl]
    have hL :
        (((dated.mergeSort (fun a b => decide (a.1 ≤ b.1))).filter
          (fun p => decide (p.1 < today))).mergeSort
            (fun a b => decide (b.1 ≤ a.1))).map (fun p : Int × RowFields => p.1) =
        ((dated.map Prod.fst).filter (fun d => decide (d < today))).mergeSort
          (fun a b => decide (b ≤ a)) := by
      have hLsorted :
          ((((dated.mergeSort (fun a b => decide (a.1 ≤ b.1))).filter
            (fun p => decide (p.1 < today))).mergeSort
              (fun a b => decide (b.1 ≤ a.1))).map
                (fun p : Int × RowFields => p.1)).Pairwise
            (fun a b : Int => b ≤ a) := by
        have hp := List.sorted_mergeSort descPairs_trans descPairs_total
          ((dated.mergeSort (fun a b => decide (a.1 ≤ b.1))).filter
            (fun p => decide (p.1 < today)))
        exact List.pairwise_map.mpr (hp.imp (by simp))
      have hRsorted :
          (((dated.map Prod.fst).filter (fun d => decide (d < today))).mergeSort
            (fun a b => decide (b ≤ a))).Pairwise (fun a b : Int => b ≤ a) := by
        have hp := List.sorted_mergeSort descInt_trans descInt_total
          ((dated.map Prod.fst).filter (fun d => decide (d < today)))
        exact hp.imp (by simp)
      have hLperm :
          List.Perm
            ((((dated.mergeSort (fun a b => decide (a.1 ≤ b.1))).filter
              (fun p => decide (p.1 < today))).mergeSort
                (fun a b => decide (b.1 ≤ a.1))).map (fun p : Int × RowFields => p.1))
            (((dated.map Prod.fst).filter (fun d => decide (d < today))).mergeSort
              (fun a b => decide (b ≤ a))) := by
        refine ((List.mergeSort_perm _ _).map _).trans (hpermP.trans ?_)
        exact (List.mergeSort_perm _ _).symm
      haveI : IsAntisymm Int (fun a b : Int => b ≤ a) :=
        ⟨fun a b h1 h2 => le_antisymm h2 h1⟩
      exact List.eq_of_perm_of_sorted hLperm hLsorted hRsorted
    rw [hL]
  · rw [not_and_or] at hcond
    rcases hcond with hk | hne
    · have h0 : max (num - 1) 0 = 0 :=
        le_antisymm (not_lt.mp hk) (le_max_right _ _)
      rw [h0]
      rfl
    · rw [not_ne_iff] at hne
      rw [hne] at hpermP
      have hP0 : (dated.map Prod.fst).filter (fun d => decide (d < today)) = [] :=
        hpermP.symm.eq_nil
      rw [hP0]
      simp

/-- Claim C4: for a symbol whose raw rows all have parseable dates, the
rows are sorted ascending by date and classified against a single
reference date `today` (future iff `today ≤ date`, past iff
`date < today`): `next_earnings_date` is the date of the earliest future
row if any future row exists (else `None`), and `past_earnings` consists
of the `max (num - 1) 0` most recent past rows ordered by date
descending. -/
theorem claim_C4 (fetch : String → Int → QueryResult) (today num : Int)
    (sym : String) (rs : List RawRow)
    (hs : normalizeSymbols [sym] = [sym])
    (hf : fetch sym (fetchLimit num) = QueryResult.rows rs)
    (hall : ∀ r ∈ rs, (RawRow.date? r).isSome) :
    ∃ e, get_earnings_calendar fetch today [sym] num = [e] ∧
      (e.next_earnings_date = Option.none ↔
        (rs.filterMap RawRow.date?).filter (fun d => decide (today ≤ d)) = []) ∧
      (∀ d, e.next_earnings_date = some d →
        d ∈ (rs.filterMap RawRow.date?).filter (fun d => decide (today ≤ d)) ∧
        ∀ x ∈ (rs.filterMap RawRow.date?).filter (fun d => decide (today ≤ d)), d ≤ x) ∧
      e.past_earnings.map PastEvent.date =
        (((rs.filterMap RawRow.date?).filter (fun d => decide (d < today))).mergeSort
          (fun a b => decide (b ≤ a))).take (max (num - 1) 0).toNat := by
  have hget : get_earnings_calendar fetch today [sym] num =
      [processRows today (effNum num) sym rs] := by
    unfold get_earnings_calendar
    rw [hs]
    simp [hf]
  refine ⟨processRows today (effNum num) sym rs, hget, ?_⟩
  rw [← datedPairs_map_fst rs]
  by_cases hd : datedPairs rs = []
  · rw [hd]
    simp [processRows, hd, defaultEntry]
  · have hnd : processRows today (effNum num) sym rs =
        { symbol := sym
          next_earnings_date :=
            (nextInfo today ((datedPairs rs).mergeSort
              (fun a b => decide (a.1 ≤ b.1)))).1
          next_earnings_estimate :=
            (nextInfo today ((datedPairs rs).mergeSort
              (fun a b => decide (a.1 ≤ b.1)))).2
          past_earnings :=
            pastInfo today (effNum num) ((datedPairs rs).mergeSort
              (fun a b => decide (a.1 ≤ b.1))) } := by
      unfold processRows
      rw [if_neg hd]
    rw [hnd]
    refine ⟨nextInfo_fst_none_iff today (datedPairs rs),
      fun d hd' => nextInfo_fst_least today (datedPairs rs) d hd', ?_⟩
    rw [pastInfo_dates today (effNum num) (datedPairs rs), maxPast_effNum num]

theorem claim_C4_witness :
    ∃ e, get_earnings_calendar
        (fun _ _ => QueryResult.rows
          [{ date? := some 20, fields := [] },
           { date? := some 5, fields := [] },
           { date? := some 1, fields := [] }]) 10 ["AAPL"] 3 = [e] ∧
      (e.next_earnings_date = Option.none ↔
        (([{ date? := some 20, fields := [] },
            { date? := some 5, fields := [] },
            { date? := some 1, fields := [] }] : List RawRow).filterMap
            RawRow.date?).filter (fun d => decide ((10 : Int) ≤ d)) = []) ∧
      (∀ d, e.next_earnings_date = some d →
        d ∈ (([{ date? := some 20, fields := [] },
            { date? := some 5, fields := [] },
            { date? := some 1, fields := [] }] : List RawRow).filterMap
            RawRow.date?).filter (fun d => decide ((10 : Int) ≤ d)) ∧
        ∀ x ∈ (([{ date? := some 20, fields := [] },
            { date? := some 5, fields := [] },
            { date? := some 1, fields := [] }] : List RawRow).filterMap
            RawRow.date?).filter (fun d => decide ((10 : Int) ≤ d)), d ≤ x) ∧
      e.past_earnings.map PastEvent.date =
        (((([{ date? := some 20, fields := [] },
             { date? := some 5, fields := [] },
             { date? := some 1, fields := [] }] : List RawRow).filterMap
            RawRow.date?).filter (fun d => decide (d < (10 : Int)))).mergeSort
          (fun a b => decide (b ≤ a))).take (max ((3 : Int) - 1) 0).toNat :=
  claim_C4
    (fun _ _ => QueryResult.rows
      [{ date? := some 20, fields := [] },
       { date? := some 5, fields := [] },
       { date? := some 1, fields := [] }]) 10 3 "AAPL"
    [{ date? := some 20, fields := [] },
     { date? := some 5, fields := [] },
     { date? := some 1, fields := [] }]
    (by decide) rfl (by decide)

end Fincat
